import Mathlib

/-!
Verification of the midgard block-indexer core against its specification.

The Go sources are shallowly embedded: machine integers (int64) become Int,
Go maps become association lists or functions to Option, the SQL client and
the Tendermint RPC node become explicit oracles passed as parameters, and
fallible code returns Except.  Each definition mirrors one Go function and
is named after it.
-/

namespace Midgard

/-! ## Chain follower: src/chain/chain.go -/

/-- Mirrors tendermint BlockMeta as used by fetchBlocks: Header.Height,
Header.Time and BlockID.Hash. -/
structure BlockMeta where
  height : Int
  time : Int
  hash : List Nat
deriving DecidableEq

/-- Mirrors coretypes.ResultBlockResults as used by chain.go: only the
Height field is inspected (validation at chain.go line 193). -/
structure BlockResults where
  height : Int
deriving DecidableEq

/-- Mirrors chain.Block (chain.go lines 31 to 36). -/
structure Block where
  height : Int
  time : Int
  hash : List Nat
  results : BlockResults
deriving DecidableEq

/-- Oracle for the remote Tendermint node.  info models BlockchainInfo(min, max),
blockResults models the batched BlockResults responses (per requested height),
trigger models the outcome of signClientTrigger for the batch issued at a
given offset. -/
structure ChainNode where
  info : Int → Int → List BlockMeta
  blockResults : Int → BlockResults
  trigger : Int → Except String Unit

/-- The validation loop of fetchBlocks (chain.go lines 160 to 166): every
height must be strictly below its predecessor in the metadata list. -/
def descendingOK : List BlockMeta → Bool
  | [] => true
  | [_] => true
  | a :: b :: rest => decide (b.height < a.height) && descendingOK (b :: rest)

/-- The blocks fetchBlocks assembles from the metadata list, in ascending
height order (chain.go lines 172 to 186): the list is walked from its last
entry to its first, and the batched BlockResults response is attached. -/
def assembleBatch (node : ChainNode) (metas : List BlockMeta) : List Block :=
  metas.reverse.map fun m =>
    { height := m.height, time := m.time, hash := m.hash
      results := node.blockResults m.height }

/-- Mirrors Client.fetchBlocks (chain.go lines 148 to 199) with the fixed
batch size 20 used by Follow (chain.go line 105), so last = offset + 19.
The head and last entries of the metadata list stand for metas[0] and
metas[len-1] of the Go range check.  Returns the resolved blocks in
ascending height order, or the first error. -/
def fetchBlocks (node : ChainNode) (offset : Int) : Except String (List Block) :=
  if (node.info offset (offset + 19)).isEmpty then .ok []
  else if descendingOK (node.info offset (offset + 19)) then
    if ((node.info offset (offset + 19)).headD ⟨0, 0, []⟩).height > offset + 19 ||
        ((node.info offset (offset + 19)).getLastD ⟨0, 0, []⟩).height < offset then
      .error "Tendermint RPC BlockchainInfo got range mismatch"
    else
      match node.trigger offset with
      | .error e => .error e
      | .ok () =>
        if (assembleBatch node (node.info offset (offset + 19))).all
            (fun b => b.results.height == b.height) then
          .ok (assembleBatch node (node.info offset (offset + 19)))
        else
          .error "Tendermint RPC BlockResults height mismatch"
  else
    .error "Tendermint RPC BlockchainInfo not in descending order"

/-- Termination causes of Follow: ErrNoData, a fatal error, or the fuel of
the bounded model ran out (the Go loop has no bound). -/
inductive FollowExit where
  | noData
  | fatal (msg : String)
  | outOfFuel
deriving DecidableEq

/-- The observable outcome of a (bounded) run of Follow: the blocks sent to
the out channel in order, the final offset, and the cause of termination. -/
structure FollowResult where
  emitted : List Block
  offset : Int
  exit : FollowExit
deriving DecidableEq

/-- The main loop of Client.Follow (chain.go lines 106 to 144).  polls gives
the LatestBlockHeight reported by successive Status calls; fuel bounds the
number of iterations.  The quit channel is modelled as never signalled, so
every block of a successful batch is emitted. -/
def followLoop (node : ChainNode) (polls : Nat → Int) :
    Nat → Int → Int → Nat → FollowResult
  | 0, _, offset, _ => ⟨[], offset, .outOfFuel⟩
  | fuel + 1, latest, offset, pollIdx =>
    if offset > latest then
      if offset > polls pollIdx then ⟨[], offset, .noData⟩
      else followLoop node polls fuel (polls pollIdx) offset (pollIdx + 1)
    else
      match fetchBlocks node offset with
      | .error e => ⟨[], offset, .fatal e⟩
      | .ok [] => followLoop node polls fuel latest offset pollIdx
      | .ok (b :: bs) =>
        ⟨(b :: bs) ++ (followLoop node polls fuel latest
            ((b :: bs).foldl (fun _ blk => blk.height + 1) offset)
            pollIdx).emitted,
         (followLoop node polls fuel latest
            ((b :: bs).foldl (fun _ blk => blk.height + 1) offset)
            pollIdx).offset,
         (followLoop node polls fuel latest
            ((b :: bs).foldl (fun _ blk => blk.height + 1) offset)
            pollIdx).exit⟩

/-- Mirrors Client.Follow (chain.go lines 84 to 145): the initial Status
call is poll 0, then the loop runs. -/
def follow (node : ChainNode) (polls : Nat → Int) (fuel : Nat) (offset : Int) :
    FollowResult :=
  followLoop node polls fuel (polls 0) offset 1

/-- The heights of the blocks sent to the out channel. -/
def FollowResult.heights (r : FollowResult) : List Int :=
  r.emitted.map Block.height

/-- The contiguous ascending height sequence s, s+1, ..., s+n-1. -/
def ascHeights (s : Int) : Nat → List Int
  | 0 => []
  | n + 1 => s :: ascHeights (s + 1) n

/-! ## Event demultiplexer: src/unnamed/part_002 (package event) -/

/-- Mirrors abci.Event as consumed by Demux.event: a type string and an
attribute bag of key and value pairs. -/
structure AbciEvent where
  type : String
  attributes : List (String × String)
deriving DecidableEq

/-- Mirrors event.Metadata: the official acceptance moment of the block,
in nanoseconds. -/
structure Metadata where
  blockTimestamp : Int
deriving DecidableEq

/-- The ten LoadTendermint decoders, one per known event type.  Their code
is outside the given sources, so they are arbitrary parameters; R is the
(abstract) decoded record payload. -/
structure Decoders (R : Type) where
  loadAdd : List (String × String) → Except String R
  loadFee : List (String × String) → Except String R
  loadMessage : List (String × String) → Except String R
  loadOutbound : List (String × String) → Except String R
  loadPool : List (String × String) → Except String R
  loadRefund : List (String × String) → Except String R
  loadReserve : List (String × String) → Except String R
  loadStake : List (String × String) → Except String R
  loadSwap : List (String × String) → Except String R
  loadUnstake : List (String × String) → Except String R

/-- One Listener callback invocation, tagged with which On method fired. -/
inductive Delivery (R : Type) where
  | onAdd (r : R) (m : Metadata)
  | onFee (r : R) (m : Metadata)
  | onMessage (r : R) (m : Metadata)
  | onOutbound (r : R) (m : Metadata)
  | onPool (r : R) (m : Metadata)
  | onRefund (r : R) (m : Metadata)
  | onReserve (r : R) (m : Metadata)
  | onStake (r : R) (m : Metadata)
  | onSwap (r : R) (m : Metadata)
  | onUnstake (r : R) (m : Metadata)
deriving DecidableEq

/-- Mirrors Demux.event (part_002 lines 71 to 130): switch on the type
string, decode the attributes, dispatch to the Listener; unknown types
yield errEventType. -/
def demuxEvent {R : Type} (d : Decoders R) (e : AbciEvent) (meta : Metadata) :
    Except String (Delivery R) :=
  match e.type with
  | "add" => (d.loadAdd e.attributes).map fun r => .onAdd r meta
  | "fee" => (d.loadFee e.attributes).map fun r => .onFee r meta
  | "message" => (d.loadMessage e.attributes).map fun r => .onMessage r meta
  | "outbound" => (d.loadOutbound e.attributes).map fun r => .onOutbound r meta
  | "pool" => (d.loadPool e.attributes).map fun r => .onPool r meta
  | "refund" => (d.loadRefund e.attributes).map fun r => .onRefund r meta
  | "reserve" => (d.loadReserve e.attributes).map fun r => .onReserve r meta
  | "stake" => (d.loadStake e.attributes).map fun r => .onStake r meta
  | "swap" => (d.loadSwap e.attributes).map fun r => .onSwap r meta
  | "unstake" => (d.loadUnstake e.attributes).map fun r => .onUnstake r meta
  | _ => .error "unknown event type"

/-- The ten type strings known to the switch of Demux.event. -/
def knownEventTypes : List String :=
  ["add", "fee", "message", "outbound", "pool", "refund", "reserve",
   "stake", "swap", "unstake"]

/-- One step of the event loop of Demux.Block: deliver on success, log and
skip on failure. -/
def demuxStep {R : Type} (d : Decoders R) (meta : Metadata)
    (acc : List (Delivery R) × List String) (e : AbciEvent) :
    List (Delivery R) × List String :=
  match demuxEvent d e meta with
  | .ok dv => (acc.1 ++ [dv], acc.2)
  | .error err => (acc.1, acc.2 ++ ["event skipped: " ++ err])

/-- Mirrors Demux.Block (part_002 lines 53 to 65): iterate the transactions
of the block and the events of each transaction; a failing event is logged
and skipped, the rest proceed.  Returns the Listener invocations in order
together with the log lines; the Go method has no error return. -/
def demuxBlock {R : Type} (d : Decoders R) (txs : List (List AbciEvent))
    (meta : Metadata) : List (Delivery R) × List String :=
  txs.foldl (fun acc tx => tx.foldl (demuxStep d meta) acc) ([], [])

/-- The log lines one event contributes in Demux.Block: none on success,
one on failure. -/
def demuxLogOf {R : Type} (d : Decoders R) (meta : Metadata) (e : AbciEvent) :
    List String :=
  match demuxEvent d e meta with
  | .ok _ => []
  | .error err => ["event skipped: " ++ err]

/-! ## Depth snapshot differ: src/internal/timeseries/mapdiff.go -/

/-- Go map from pool name to int64 depth, as an association list (first
binding wins on lookup, as Go maps have unique keys). -/
abbrev StrIntMap := List (String × Int)

/-- Mirrors mapDiff (mapdiff.go lines 15 to 17). -/
structure MapDiff where
  snapshot : StrIntMap
deriving DecidableEq

/-- Mirrors mapDiff.diffAtKey (mapdiff.go lines 50 to 58): with hasNew the
result is (not hasOld or oldV differs, newV); without hasNew it is
(hasOld, 0). -/
def MapDiff.diffAtKey (md : MapDiff) (pool : String) (newMap : StrIntMap) :
    Bool × Int :=
  let oldV? := md.snapshot.lookup pool
  match newMap.lookup pool with
  | some newV => (oldV?.isNone || oldV? != some newV, newV)
  | none => (oldV?.isSome, 0)

/-- Mirrors snapshotManager (mapdiff.go lines 77 to 81). -/
structure SnapshotManager where
  assetE8DepthSnapshot : MapDiff
  runeE8DepthSnapshot : MapDiff
  snapshotHeight : Int
deriving DecidableEq

/-- The pool name set accumulated by update (mapdiff.go lines 107 to 116):
the union of the keys of the two current maps and the two snapshots, here
as a duplicate-free list. -/
def poolNamesOf (assetCur runeCur snapAsset snapRune : StrIntMap) : List String :=
  (assetCur.map Prod.fst ++ runeCur.map Prod.fst ++
   snapAsset.map Prod.fst ++ snapRune.map Prod.fst).dedup

/-- The rows emitted by update (mapdiff.go lines 134 to 148): one row
(height, pool, assetValue, runeValue) per pool of the union for which
diffAtKey reports a difference on either side. -/
def updateRows (sm : SnapshotManager) (height : Int)
    (assetCur runeCur : StrIntMap) : List (Int × String × Int × Int) :=
  (poolNamesOf assetCur runeCur sm.assetE8DepthSnapshot.snapshot
      sm.runeE8DepthSnapshot.snapshot).filterMap fun pool =>
    let a := sm.assetE8DepthSnapshot.diffAtKey pool assetCur
    let r := sm.runeE8DepthSnapshot.diffAtKey pool runeCur
    if a.1 || r.1 then some (height, pool, a.2, r.2) else none

/-- Decidable equality for Except, used to evaluate witnesses. -/
instance {ε α : Type} [DecidableEq ε] [DecidableEq α] :
    DecidableEq (Except ε α) := fun a b =>
  match a, b with
  | .error x, .error y =>
    if h : x = y then .isTrue (by rw [h]) else .isFalse (by simp [h])
  | .error _, .ok _ => .isFalse (by simp)
  | .ok _, .error _ => .isFalse (by simp)
  | .ok x, .ok y =>
    if h : x = y then .isTrue (by rw [h]) else .isFalse (by simp [h])

/-- Mirrors sql.Result as used here: RowsAffected may itself fail. -/
structure ExecResult where
  rowsAffected : Except String Int
deriving DecidableEq

/-- Mirrors snapshotManager.update (mapdiff.go lines 86 to 203).  The two
DBExec outcomes (for aggregate_states and aggregate_id_states) are oracle
parameters.  The snapshots are replaced before the inserts run (lines 149
and 150); with no changed pool no insert runs and the result is nil.  Each
insert fails the update when DBExec errs, when RowsAffected errs, or when
the reported count differs from the number of emitted rows. -/
def SnapshotManager.update (sm : SnapshotManager) (height : Int)
    (assetCur runeCur : StrIntMap) (exec1 exec2 : Except String ExecResult) :
    SnapshotManager × Except String Unit :=
  let rows := updateRows sm height assetCur runeCur
  let sm2 : SnapshotManager :=
    { assetE8DepthSnapshot := ⟨assetCur⟩
      runeE8DepthSnapshot := ⟨runeCur⟩
      snapshotHeight := height }
  let diffNum := rows.length
  if diffNum = 0 then
    (sm2, .ok ())
  else
    match exec1 with
    | .error e => (sm2, .error ("Error saving depths: " ++ e))
    | .ok res1 =>
      match res1.rowsAffected with
      | .error e => (sm2, .error ("Error saving depths results: " ++ e))
      | .ok n1 =>
        if n1 ≠ (diffNum : Int) then
          (sm2, .error "Not all depths were saved")
        else
          match exec2 with
          | .error e => (sm2, .error ("Error 2 saving depths: " ++ e))
          | .ok res2 =>
            match res2.rowsAffected with
            | .error e => (sm2, .error ("Error 2 saving depths results: " ++ e))
            | .ok n2 =>
              if n2 ≠ (diffNum : Int) then
                (sm2, .error "2 Not all depths were saved")
              else
                (sm2, .ok ())

/-! ## Aggregate state, serialization, block commit:
src/internal/usecase/thorchain_dummy_test.go (package timeseries part) -/

/-- Mirrors aggTrack (lines 65 to 68): the two per-pool depth maps. -/
structure AggTrack where
  assetE8DepthPerPool : StrIntMap
  runeE8DepthPerPool : StrIntMap
deriving DecidableEq

/-- Mirrors blockTrack (lines 57 to 62). -/
structure BlockTrack where
  height : Int
  timestamp : Int
  hash : List Nat
  agg : AggTrack
deriving DecidableEq

/-- Modelled from the spec: the encoding/gob serialization of aggTrack is
outside the given sources; the spec asks for an opaque, self-describing,
forward-compatible binary encoding of the aggregate state.  A natural
number is encoded as a digit count followed by its base 256 digits. -/
def encNat (n : Nat) : List Nat :=
  (Nat.digits 256 n).length :: Nat.digits 256 n

/-- Modelled from the spec: decoder matching encNat; returns the value and
the remaining bytes. -/
def decNat : List Nat → Option (Nat × List Nat)
  | [] => none
  | k :: rest =>
    if k ≤ rest.length then some (Nat.ofDigits 256 (rest.take k), rest.drop k)
    else none

/-- Modelled from the spec: signed integers ride on the unsigned encoding
with the sign in the lowest bit, as gob documents for its integers. -/
def zigzag (i : Int) : Nat :=
  if 0 ≤ i then 2 * i.toNat else 2 * (-i).toNat - 1

/-- Modelled from the spec: inverse of zigzag. -/
def unzigzag (u : Nat) : Int :=
  if u % 2 = 0 then (u / 2 : Nat) else -(((u + 1) / 2 : Nat) : Int)

/-- Modelled from the spec: Int encoding. -/
def encInt (i : Int) : List Nat :=
  encNat (zigzag i)

/-- Modelled from the spec: Int decoder. -/
def decInt (bs : List Nat) : Option (Int × List Nat) :=
  (decNat bs).map fun p => (unzigzag p.1, p.2)

/-- Modelled from the spec: a string is encoded as its length followed by
its character codes. -/
def encString (s : String) : List Nat :=
  encNat s.data.length ++ s.data.map Char.toNat

/-- Modelled from the spec: string decoder. -/
def decString (bs : List Nat) : Option (String × List Nat) :=
  match decNat bs with
  | none => none
  | some (k, rest) =>
    if k ≤ rest.length then
      some (⟨(rest.take k).map Char.ofNat⟩, rest.drop k)
    else none

/-- Modelled from the spec: one map binding, key then value. -/
def encPair (p : String × Int) : List Nat :=
  encString p.1 ++ encInt p.2

/-- Modelled from the spec: a depth map is its binding count followed by
the bindings. -/
def encDepthMap (m : StrIntMap) : List Nat :=
  encNat m.length ++ m.flatMap encPair

/-- Modelled from the spec: decode a known number of bindings. -/
def decPairs : Nat → List Nat → Option (StrIntMap × List Nat)
  | 0, bs => some ([], bs)
  | k + 1, bs =>
    match decString bs with
    | none => none
    | some (s, bs1) =>
      match decInt bs1 with
      | none => none
      | some (v, bs2) =>
        match decPairs k bs2 with
        | none => none
        | some (m, bs3) => some ((s, v) :: m, bs3)

/-- Modelled from the spec: depth map decoder. -/
def decDepthMap (bs : List Nat) : Option (StrIntMap × List Nat) :=
  match decNat bs with
  | none => none
  | some (k, rest) => decPairs k rest

/-- Modelled from the spec: the aggregate state is its two field maps, each
preceded by a numeric field tag so that the blob stays self-describing. -/
def encAggTrack (t : AggTrack) : List Nat :=
  encNat 1 ++ encDepthMap t.assetE8DepthPerPool ++
  encNat 2 ++ encDepthMap t.runeE8DepthPerPool

/-- Modelled from the spec: aggregate state decoder; checks the field tags
and yields the two maps with the unread remainder. -/
def decAggTrack (bs : List Nat) : Option (AggTrack × List Nat) :=
  match decNat bs with
  | none => none
  | some (tag1, bs1) =>
    if tag1 = 1 then
      match decDepthMap bs1 with
      | none => none
      | some (assetMap, bs2) =>
        match decNat bs2 with
        | none => none
        | some (tag2, bs3) =>
          if tag2 = 2 then
            match decDepthMap bs3 with
            | none => none
            | some (runeMap, bs4) => some (⟨assetMap, runeMap⟩, bs4)
          else none
    else none

/-- One row of the block_log table as written by CommitBlock (line 152). -/
structure BlockLogRow where
  height : Int
  timestampNs : Int
  hash : List Nat
  aggState : List Nat
deriving DecidableEq

/-- The running totals held by the recorder that CommitBlock snapshots; the
recorder code itself is outside the given sources, so only the two depth
maps it exposes through AssetE8DepthPerPool and RuneE8DepthPerPool appear. -/
structure RunningTotals where
  assetE8DepthPerPool : StrIntMap
  runeE8DepthPerPool : StrIntMap
deriving DecidableEq

/-- Process state touched by CommitBlock: the recorder totals and the
in-memory lastBlockTrack. -/
structure TimeseriesState where
  totals : RunningTotals
  lastBlockTrack : BlockTrack
deriving DecidableEq

/-- The blockTrack snapshot CommitBlock builds (lines 135 to 144). -/
def commitTrack (st : TimeseriesState) (height timestamp : Int)
    (hash : List Nat) : BlockTrack :=
  { height := height, timestamp := timestamp, hash := hash
    agg := ⟨st.totals.assetE8DepthPerPool, st.totals.runeE8DepthPerPool⟩ }

/-- The block_log row CommitBlock inserts (lines 146 to 153). -/
def commitRow (st : TimeseriesState) (height timestamp : Int)
    (hash : List Nat) : BlockLogRow :=
  { height := height, timestampNs := timestamp, hash := hash
    aggState := encAggTrack (commitTrack st height timestamp hash).agg }

/-- Mirrors CommitBlock (lines 133 to 173).  The DBExec outcome for the
insert is an oracle parameter; the ApplyOutboundQ and ApplyFeeQ
reconciliations live outside the given sources and are parameters.  On a
zero affected-row count the function logs and continues; afterwards the
queues are applied and the in-memory track is replaced. -/
def CommitBlock
    (applyOutboundQ applyFeeQ : RunningTotals → Int → Int → RunningTotals)
    (exec : Except String ExecResult) (st : TimeseriesState)
    (height timestamp : Int) (hash : List Nat) :
    Except String (TimeseriesState × List String) :=
  let track := commitTrack st height timestamp hash
  match exec with
  | .error e => .error ("persist block height: " ++ e)
  | .ok res =>
    match res.rowsAffected with
    | .error e => .error ("persist block height result: " ++ e)
    | .ok n =>
      let logs := if n = 0 then ["block height already committed"] else []
      let totals1 := applyOutboundQ st.totals height timestamp
      let totals2 := applyFeeQ totals1 height timestamp
      .ok ({ totals := totals2, lastBlockTrack := track }, logs)

/-- Mirrors loadBlockFromDB (lines 73 to 106) applied to a present row: the
agg_state bytes are gob-decoded into the track; malformed state is denied. -/
def loadBlockFromDB (row : BlockLogRow) : Except String BlockTrack :=
  match decAggTrack row.aggState with
  | none => .error "restore with malformed aggregation state denied"
  | some (agg, _) =>
    .ok { height := row.height, timestamp := row.timestampNs
          hash := row.hash, agg := agg }

/-- Mirrors Setup (lines 109 to 129) applied to a present last row: restore
the track and copy its two maps into the recorder. -/
def Setup (row : BlockLogRow) : Except String (RunningTotals × BlockTrack) :=
  match loadBlockFromDB row with
  | .error e => .error e
  | .ok track =>
    .ok (⟨track.agg.assetE8DepthPerPool, track.agg.runeE8DepthPerPool⟩, track)

/-! ## Point-in-time lookups: src/internal/timeseries/lookup.go -/

/-- Instants are nanoseconds since the Unix epoch as mathematical integers;
the zero value of Go time.Time (January 1 of year 1) is this constant. -/
def goTimeZeroNanos : Int := -62135596800000000000

/-- Mirrors time.Time.IsZero under the encoding above. -/
def timeIsZero (t : Int) : Bool := t == goTimeZeroNanos

/-- The error of lookup.go line 12. -/
def errBeyondLast : String := "cannot resolve beyond the last block (timestamp)"

/-- Environment of the lookup functions: the LastBlock track and the
database, which maps a query string and the bound moment to result rows
(each row a list of column strings). -/
structure LookupEnv where
  lastBlock : BlockTrack
  db : String → List String → Int → List (List String)

/-- The SQL text of Pools (lookup.go line 25). -/
def poolsQuery : String :=
  "SELECT pool FROM stake_events WHERE block_timestamp <= $1 GROUP BY pool"

/-- Mirrors Pools (lookup.go lines 17 to 41).  Returns the result and the
list of issued queries with the moment each was bound to. -/
def Pools (env : LookupEnv) (moment : Int) :
    Except String (List String) × List (String × Int) :=
  let timestamp := env.lastBlock.timestamp
  if timeIsZero moment then
    ((env.db poolsQuery [] timestamp).map (fun row => row.headD ""),
     [(poolsQuery, timestamp)]).map .ok id
  else if timestamp < moment then
    (.error errBeyondLast, [])
  else
    ((env.db poolsQuery [] moment).map (fun row => row.headD ""),
     [(poolsQuery, moment)]).map .ok id

/-- The SQL text of PoolStatus (lookup.go line 54). -/
def poolStatusQuery : String :=
  "SELECT COALESCE(last(status, block_timestamp), \x27\x27) FROM pool_events WHERE block_timestamp <= $2 AND asset = $1"

/-- Mirrors PoolStatus (lookup.go lines 46 to 68). -/
def PoolStatus (env : LookupEnv) (pool : String) (moment : Int) :
    Except String String × List (String × Int) :=
  let timestamp := env.lastBlock.timestamp
  if timeIsZero moment then
    (.ok (((env.db poolStatusQuery [pool] timestamp).headD []).headD ""),
     [(poolStatusQuery, timestamp)])
  else if timestamp < moment then
    (.error errBeyondLast, [])
  else
    (.ok (((env.db poolStatusQuery [pool] moment).headD []).headD ""),
     [(poolStatusQuery, moment)])

/-- The SQL text of StakeAddrs (lookup.go line 81). -/
def stakeAddrsQuery : String :=
  "SELECT rune_addr FROM stake_events WHERE block_timestamp <= $1 GROUP BY rune_addr"

/-- Mirrors StakeAddrs (lookup.go lines 73 to 97). -/
def StakeAddrs (env : LookupEnv) (moment : Int) :
    Except String (List String) × List (String × Int) :=
  let timestamp := env.lastBlock.timestamp
  if timeIsZero moment then
    (.ok ((env.db stakeAddrsQuery [] timestamp).map fun row => row.headD ""),
     [(stakeAddrsQuery, timestamp)])
  else if timestamp < moment then
    (.error errBeyondLast, [])
  else
    (.ok ((env.db stakeAddrsQuery [] moment).map fun row => row.headD ""),
     [(stakeAddrsQuery, moment)])

/-- The SQL text of Mimir (lookup.go line 111). -/
def mimirQuery : String :=
  "SELECT name, value FROM set_mimir_event_entries WHERE block_timestamp <= $1"

/-- Mirrors Mimir (lookup.go lines 102 to 128); the name to value map is
kept as the scanned binding list. -/
def Mimir (env : LookupEnv) (moment : Int) :
    Except String (List (String × String)) × List (String × Int) :=
  let timestamp := env.lastBlock.timestamp
  if timeIsZero moment then
    (.ok ((env.db mimirQuery [] timestamp).map fun row =>
        (row.headD "", (row.drop 1).headD "")),
     [(mimirQuery, timestamp)])
  else if timestamp < moment then
    (.error errBeyondLast, [])
  else
    (.ok ((env.db mimirQuery [] moment).map fun row =>
        (row.headD "", (row.drop 1).headD "")),
     [(mimirQuery, moment)])

/-- The SQL text of newNodes (lookup.go line 168). -/
def newNodesQuery : String :=
  "SELECT node_addr FROM new_node_events WHERE block_timestamp <= $1"

/-- The SQL text of StatusPerNode (lookup.go line 148). -/
def statusPerNodeQuery : String :=
  "SELECT node_addr, current FROM update_node_account_status_events WHERE block_timestamp <= $1"

/-- Mirrors newNodes (lookup.go lines 166 to 185): every scanned address
maps to the empty status. -/
def newNodes (env : LookupEnv) (moment : Int) :
    List (String × String) × List (String × Int) :=
  ((env.db newNodesQuery [] moment).map (fun row => (row.headD "", "")),
   [(newNodesQuery, moment)])

/-- Mirrors StatusPerNode (lookup.go lines 134 to 164): the newNodes map is
then overlaid with the scanned statuses (later bindings win, so the list
keeps the later writes in front for lookup). -/
def StatusPerNode (env : LookupEnv) (moment : Int) :
    Except String (List (String × String)) × List (String × Int) :=
  let timestamp := env.lastBlock.timestamp
  if timeIsZero moment then
    let base := newNodes env timestamp
    let scanned := (env.db statusPerNodeQuery [] timestamp).map fun row =>
      (row.headD "", (row.drop 1).headD "")
    (.ok (scanned.reverse ++ base.1), base.2 ++ [(statusPerNodeQuery, timestamp)])
  else if timestamp < moment then
    (.error errBeyondLast, [])
  else
    let base := newNodes env moment
    let scanned := (env.db statusPerNodeQuery [] moment).map fun row =>
      (row.headD "", (row.drop 1).headD "")
    (.ok (scanned.reverse ++ base.1), base.2 ++ [(statusPerNodeQuery, moment)])

/-- One scanned row of the set_node_keys_events query of NodesSecpAndEd
(lookup.go lines 189 to 204). -/
structure NodeKeyRow where
  nodeAddr : String
  secp : String
  ed : String

/-- A Go map from string to string, as a function to Option. -/
def StrMap : Type := String → Option String

/-- Go map write m[k] = v. -/
def StrMap.set (m : StrMap) (k v : String) : StrMap :=
  fun q => if q = k then some v else m q

/-- The empty Go map. -/
def StrMap.empty : StrMap := fun _ => none

/-- One iteration of the scan loop of NodesSecpAndEd (lookup.go lines 201
to 214): the secp map is written at the secp key (line 209); the conflict
log for the ed map reads at the ed key (line 210), but the write to the ed
map is keyed by the secp value (line 213). -/
def nodesSecpAndEdStep (acc : StrMap × StrMap × List String)
    (row : NodeKeyRow) : StrMap × StrMap × List String :=
  let secpAddrs := acc.1
  let edAddrs := acc.2.1
  let logs := acc.2.2
  let logs1 := match secpAddrs row.secp with
    | some current =>
      if current ≠ row.nodeAddr then
        logs ++ ["secp256k1 key used by two node addresses"]
      else logs
    | none => logs
  let secpAddrs1 := secpAddrs.set row.secp row.nodeAddr
  let logs2 := match edAddrs row.ed with
    | some current =>
      if current ≠ row.nodeAddr then
        logs1 ++ ["Ed25519 key used by two node addresses"]
      else logs1
    | none => logs1
  let edAddrs1 := edAddrs.set row.secp row.nodeAddr
  (secpAddrs1, edAddrs1, logs2)

/-- Mirrors NodesSecpAndEd (lookup.go lines 188 to 216) over the scanned
rows: returns the secp256k1Addrs map, the ed25519Addrs map, and the
conflict log lines. -/
def NodesSecpAndEd (rows : List NodeKeyRow) : StrMap × StrMap × List String :=
  rows.foldl nodesSecpAndEdStep (StrMap.empty, StrMap.empty, [])

/-! ## Rendered ratios of the v1 API: src/internal/api/v1.go

The numeric expressions that reach JSON rendering are deeply embedded so
that the position of every conversion to float64 is visible. -/

/-- A numeric expression as built by the v1 handlers: int64 values, big.Rat
constructions and arithmetic, and the conversion to float64. -/
inductive NumExpr where
  | intLit (v : Int)
  | ratLit (num den : Int)
  | add (a b : NumExpr)
  | mul (a b : NumExpr)
  | quo (a b : NumExpr)
  | toFloat (a : NumExpr)
deriving DecidableEq

/-- A value at the moment it is rendered to a JSON string: either through
strconv.FormatFloat or through an integer formatter (intStr, ratIntStr). -/
inductive Rendered where
  | formatFloat (e : NumExpr)
  | formatInt (e : NumExpr)
deriving DecidableEq

/-- True when the expression contains no conversion to float64. -/
def floatFree : NumExpr → Bool
  | .intLit _ => true
  | .ratLit _ _ => true
  | .add a b => floatFree a && floatFree b
  | .mul a b => floatFree a && floatFree b
  | .quo a b => floatFree a && floatFree b
  | .toFloat _ => false

/-- The spec discipline for a rendered value: the computation is exact
(rational or integer) throughout, with at most one conversion to float64
and only as the immediate argument of the final float formatting. -/
def exactUntilRender : Rendered → Bool
  | .formatFloat (.toFloat e) => floatFree e
  | .formatFloat e => floatFree e
  | .formatInt e => floatFree e

/-- Mirrors ratFloatStr (v1.go lines 567 to 570): r.Float64() then
strconv.FormatFloat. -/
def ratFloatStr (r : NumExpr) : Rendered :=
  .formatFloat (.toFloat r)

/-- Mirrors ratIntStr (v1.go lines 562 to 564): exact integer division of
numerator by denominator, rendered as a decimal string. -/
def ratIntStr (r : NumExpr) : Rendered :=
  .formatInt r

/-- Mirrors intStr (v1.go lines 548 to 550). -/
def intStr (v : Int) : Rendered :=
  .formatInt (.intLit v)

/-- Mirrors the priceRune computation of serveV1Assets (v1.go line 49):
strconv.FormatFloat(float64(runeE8DepthPerPool[asset]) / float64(assetDepth),
...): both depths are converted to float64 before the division. -/
def serveV1AssetsPriceRune (runeDepth assetDepth : Int) : Rendered :=
  .formatFloat (.quo (.toFloat (.intLit runeDepth)) (.toFloat (.intLit assetDepth)))

/-- The ratio renderings of serveV1Assets for one asset (v1.go lines 48 to
50): priceRune is present only when the asset depth is not zero. -/
def serveV1AssetsRendered (runeDepth assetDepth : Int) : List Rendered :=
  if assetDepth ≠ 0 then [serveV1AssetsPriceRune runeDepth assetDepth] else []

/-- The stat.PoolStakes totals consumed by poolsAsset. -/
structure PoolStakesRow where
  assetE8Total : Int
  runeE8Total : Int
  stakeUnitsTotal : Int
  txCount : Int

/-- The stat.PoolSwaps totals consumed by poolsAsset. -/
structure PoolSwapsRow where
  txCount : Int
  assetE8Total : Int
  runeE8Total : Int
  liqFeeE8Total : Int
  tradeSlipBPTotal : Int

/-- The numeric values rendered into JSON by poolsAsset (v1.go lines 247 to
386), in source order.  The plain counters and depths go through intStr;
each ratio is built with big.Rat operations and rendered through ratIntStr
or ratFloatStr; conditional entries keep their source guards.  The poolROI
entry is modelled for the case that both ROI terms exist (with exactly one
present the Go code would dereference a nil big.Rat). -/
def poolsAssetRendered (height assetDepth runeDepth : Int)
    (stakes unstakes : PoolStakesRow) (swapsFromRune swapsToRune : PoolSwapsRow) :
    List Rendered :=
  let priceInRune : NumExpr := .ratLit runeDepth assetDepth
  let buyVolume : NumExpr := .mul (.ratLit swapsFromRune.assetE8Total 1) priceInRune
  let sellVolume : NumExpr := .mul (.ratLit swapsToRune.assetE8Total 1) priceInRune
  let poolVolume : NumExpr :=
    .mul (.ratLit (swapsFromRune.assetE8Total + swapsToRune.assetE8Total) 1) priceInRune
  [intStr height, intStr assetDepth, intStr stakes.assetE8Total,
   intStr swapsFromRune.txCount, intStr swapsFromRune.liqFeeE8Total,
   intStr (2 * runeDepth),
   intStr (swapsFromRune.liqFeeE8Total + swapsToRune.liqFeeE8Total),
   intStr (stakes.stakeUnitsTotal - unstakes.stakeUnitsTotal),
   intStr runeDepth,
   intStr (stakes.runeE8Total - unstakes.runeE8Total),
   intStr swapsToRune.txCount, intStr swapsToRune.liqFeeE8Total,
   intStr stakes.txCount,
   intStr (stakes.txCount + unstakes.txCount),
   intStr (swapsFromRune.txCount + swapsToRune.txCount),
   intStr unstakes.txCount] ++
  (if assetDepth ≠ 0 then
    [ratFloatStr priceInRune,
     ratIntStr (.add
       (.mul (.ratLit (stakes.assetE8Total - unstakes.assetE8Total) 1) priceInRune)
       (.ratLit (stakes.runeE8Total - unstakes.runeE8Total) 1)),
     ratIntStr buyVolume, ratIntStr sellVolume, ratIntStr poolVolume] ++
    (if swapsFromRune.txCount ≠ 0 then
      [ratFloatStr (.quo buyVolume (.ratLit swapsFromRune.txCount 1))] else []) ++
    (if swapsToRune.txCount ≠ 0 then
      [ratFloatStr (.quo sellVolume (.ratLit swapsToRune.txCount 1))] else []) ++
    (if swapsFromRune.txCount + swapsToRune.txCount ≠ 0 then
      [ratFloatStr (.quo poolVolume
        (.ratLit (swapsFromRune.txCount + swapsToRune.txCount) 1))] else [])
   else []) ++
  (if stakes.assetE8Total - unstakes.assetE8Total ≠ 0 then
    [ratFloatStr (.ratLit (assetDepth - (stakes.assetE8Total - unstakes.assetE8Total))
       (stakes.assetE8Total - unstakes.assetE8Total))] else []) ++
  (if stakes.runeE8Total - unstakes.runeE8Total ≠ 0 then
    [ratFloatStr (.ratLit (runeDepth - (stakes.runeE8Total - unstakes.runeE8Total))
       (stakes.runeE8Total - unstakes.runeE8Total))] else []) ++
  (if stakes.assetE8Total - unstakes.assetE8Total ≠ 0 ∧
      stakes.runeE8Total - unstakes.runeE8Total ≠ 0 then
    [ratFloatStr (.mul (.add
        (.ratLit (assetDepth - (stakes.assetE8Total - unstakes.assetE8Total))
          (stakes.assetE8Total - unstakes.assetE8Total))
        (.ratLit (runeDepth - (stakes.runeE8Total - unstakes.runeE8Total))
          (stakes.runeE8Total - unstakes.runeE8Total)))
      (.ratLit 1 2))] else []) ++
  (if swapsFromRune.txCount ≠ 0 then
    [ratFloatStr (.ratLit swapsFromRune.liqFeeE8Total swapsFromRune.txCount)] else []) ++
  (if swapsToRune.txCount ≠ 0 then
    [ratFloatStr (.ratLit swapsToRune.liqFeeE8Total swapsToRune.txCount)] else []) ++
  (if swapsFromRune.txCount + swapsToRune.txCount ≠ 0 then
    [ratFloatStr (.ratLit (swapsFromRune.liqFeeE8Total + swapsToRune.liqFeeE8Total)
       (swapsFromRune.txCount + swapsToRune.txCount))] else []) ++
  (if swapsFromRune.txCount ≠ 0 then
    [ratFloatStr (.quo (.ratLit swapsFromRune.tradeSlipBPTotal swapsFromRune.txCount)
       (.ratLit 10000 1))] else []) ++
  (if swapsToRune.txCount ≠ 0 then
    [ratFloatStr (.quo (.ratLit swapsToRune.tradeSlipBPTotal swapsToRune.txCount)
       (.ratLit 10000 1))] else []) ++
  (if swapsFromRune.txCount + swapsToRune.txCount ≠ 0 then
    [ratFloatStr (.quo
       (.ratLit (swapsFromRune.tradeSlipBPTotal + swapsToRune.tradeSlipBPTotal)
         (swapsFromRune.txCount + swapsToRune.txCount))
       (.ratLit 10000 1))] else [])

/-! ## Honest-node instances and claim statements used by the theorems -/

/-- The contiguous descending run of n block metadata entries with heights
mn+n-1 down to mn; times and hashes come from the given functions. -/
def descMetaRange (tf : Int → Int) (hf : Int → List Nat) (mn : Int) :
    Nat → List BlockMeta
  | 0 => []
  | n + 1 => ⟨mn + n, tf (mn + n), hf (mn + n)⟩ :: descMetaRange tf hf mn n

/-- The fully hydrated blocks of the contiguous ascending run mn, mn+1,
..., mn+n-1, as fetchBlocks assembles them when BlockResults echoes each
requested height. -/
def blockRange (tf : Int → Int) (hf : Int → List Nat) (mn : Int) :
    Nat → List Block
  | 0 => []
  | n + 1 => ⟨mn, tf mn, hf mn, ⟨mn⟩⟩ :: blockRange tf hf (mn + 1) n

/-- A node that answers BlockchainInfo(min, max) with exactly the
contiguous descending range from min(max, latest) down to min, echoes
every requested height in BlockResults, and never fails the batch
trigger.  This is the behaviour the upstream protocol promises. -/
def honestNode (latest : Int) (tf : Int → Int) (hf : Int → List Nat) :
    ChainNode where
  info := fun mn mx => descMetaRange tf hf mn ((min mx latest - mn + 1).toNat)
  blockResults := fun h => ⟨h⟩
  trigger := fun _ => .ok ()

/-- Claim C1 as stated: every run of Follow emits exactly the heights
offset, offset+1, ... with no height skipped. -/
def c1Stated : Prop :=
  ∀ (node : ChainNode) (polls : Nat → Int) (fuel : Nat) (offset : Int),
    (follow node polls fuel offset).heights =
      ascHeights offset (follow node polls fuel offset).emitted.length

/-- A node whose BlockchainInfo answer for offset 1 is the single valid
metadata entry of height 3: strictly descending and inside the requested
window, yet not contiguous with the offset. -/
def gapNode : ChainNode where
  info := fun mn _ => if mn = 1 then [⟨3, 0, []⟩] else []
  blockResults := fun h => ⟨h⟩
  trigger := fun _ => .ok ()

/-- A node whose metadata list for any request is in ascending (hence not
strictly descending) height order. -/
def badOrderNode : ChainNode where
  info := fun _ _ => [⟨1, 0, []⟩, ⟨2, 0, []⟩]
  blockResults := fun h => ⟨h⟩
  trigger := fun _ => .ok ()

/-- Claim C2 as stated: a pool gets a row exactly when its depth, with
absent entries read as zero, differs on either side from the previous
snapshot. -/
def c2Stated : Prop :=
  ∀ (sm : SnapshotManager) (height : Int) (assetCur runeCur : StrIntMap)
    (q : String),
    q ∈ (updateRows sm height assetCur runeCur).map (fun row => row.2.1) ↔
      ((assetCur.lookup q).getD 0 ≠
        (sm.assetE8DepthSnapshot.snapshot.lookup q).getD 0 ∨
       (runeCur.lookup q).getD 0 ≠
        (sm.runeE8DepthSnapshot.snapshot.lookup q).getD 0)

/-- The snapshot manager holding pool P at depth zero on both sides. -/
def smZeroP : SnapshotManager :=
  { assetE8DepthSnapshot := ⟨[("P", 0)]⟩
    runeE8DepthSnapshot := ⟨[("P", 0)]⟩
    snapshotHeight := 0 }

/-- Decoders over the unit payload that accept every attribute bag; used to
evaluate the demultiplexer on concrete blocks. -/
def unitDecoders : Decoders Unit where
  loadAdd := fun _ => .ok ()
  loadFee := fun _ => .ok ()
  loadMessage := fun _ => .ok ()
  loadOutbound := fun _ => .ok ()
  loadPool := fun _ => .ok ()
  loadRefund := fun _ => .ok ()
  loadReserve := fun _ => .ok ()
  loadStake := fun _ => .ok ()
  loadSwap := fun _ => .ok ()
  loadUnstake := fun _ => .ok ()

/-- A lookup environment whose last block has timestamp 50 and whose
database returns no rows. -/
def envFifty : LookupEnv where
  lastBlock := { height := 100, timestamp := 50, hash := [], agg := ⟨[], []⟩ }
  db := fun _ _ _ => []

/-! ## Theorems -/

/-- Helper for C9: starting from equal secp and ed maps, the scan loop of
NodesSecpAndEd keeps the two maps equal, because both are written at the
secp key of every row. -/
theorem nodesSecpAndEd_foldl_maps_eq (rows : List NodeKeyRow) :
    ∀ (m : StrMap) (logs : List String),
      (rows.foldl nodesSecpAndEdStep (m, m, logs)).2.1 =
        (rows.foldl nodesSecpAndEdStep (m, m, logs)).1 := by
  induction rows with
  | nil => intro m logs; rfl
  | cons row rest ih =>
    intro m logs
    simp only [List.foldl_cons]
    have h1 : nodesSecpAndEdStep (m, m, logs) row =
        (m.set row.secp row.nodeAddr, m.set row.secp row.nodeAddr,
         (nodesSecpAndEdStep (m, m, logs) row).2.2) := rfl
    rw [h1]
    exact ih _ _

/-- Claim C9: in NodesSecpAndEd every scanned row writes the ed25519Addrs
map at its secp256k1 key, not its Ed25519 key.  Consequently the returned
ed25519Addrs map coincides with secp256k1Addrs, and extending the scan by
one row updates ed25519Addrs exactly at the secp key of that row. -/
theorem NodesSecpAndEd_ed_map_keyed_by_secp (rows : List NodeKeyRow) :
    (NodesSecpAndEd rows).2.1 = (NodesSecpAndEd rows).1 ∧
    ∀ row : NodeKeyRow,
      (NodesSecpAndEd (rows ++ [row])).2.1 =
        ((NodesSecpAndEd rows).2.1).set row.secp row.nodeAddr := by
  constructor
  · exact nodesSecpAndEd_foldl_maps_eq rows StrMap.empty []
  · intro row
    unfold NodesSecpAndEd
    rw [List.foldl_append]
    rfl

/-- Claim C5: when the block_log insert reports zero rows affected, the
height was already committed; CommitBlock logs, still applies the outbound
and fee queue reconciliations, still replaces the in-memory last block
snapshot, and returns without error. -/
theorem CommitBlock_zero_rows_affected
    (applyOutboundQ applyFeeQ : RunningTotals → Int → Int → RunningTotals)
    (st : TimeseriesState) (height timestamp : Int) (hash : List Nat) :
    CommitBlock applyOutboundQ applyFeeQ (.ok ⟨.ok 0⟩) st height timestamp hash =
      .ok ({ totals := applyFeeQ (applyOutboundQ st.totals height timestamp)
                height timestamp
             lastBlockTrack := commitTrack st height timestamp hash },
           ["block height already committed"]) := rfl

/-- Claim C8 counterexample: the priceRune value of serveV1Assets (v1.go
line 49) is rendered from a floating-point division of the two depths, so
at rune depth 1000 and asset depth 100 the rendering is not exact rational
arithmetic up to the final formatting step. -/
theorem serveV1Assets_priceRune_not_exact :
    (serveV1AssetsRendered 1000 100).all exactUntilRender = false := by decide

/-- Claim C8 amended: every ratio the poolsAsset handler renders is built
with exact rational arithmetic and converted to float64 only at the final
formatting step, while the priceRune value of serveV1Assets converts the
depths to float64 before dividing, for every pair of depths. -/
theorem v1_ratio_exactness :
    (∀ (height assetDepth runeDepth : Int) (stakes unstakes : PoolStakesRow)
       (swapsFromRune swapsToRune : PoolSwapsRow),
       (poolsAssetRendered height assetDepth runeDepth stakes unstakes
         swapsFromRune swapsToRune).all exactUntilRender = true) ∧
    (∀ runeDepth assetDepth : Int,
       exactUntilRender (serveV1AssetsPriceRune runeDepth assetDepth) = false) := by
  constructor
  · intro height assetDepth runeDepth stakes unstakes swapsFromRune swapsToRune
    have hite : ∀ (c : Prop) (inst : Decidable c) (l : List Rendered),
        l.all exactUntilRender = true →
        (@ite _ c inst l []).all exactUntilRender = true := by
      intro c inst l h
      split
      · exact h
      · rfl
    unfold poolsAssetRendered
    simp only [List.all_append, Bool.and_eq_true]
    repeat' apply And.intro
    all_goals
      first
        | rfl
        | exact hite _ _ _ rfl
        | (apply hite
           simp only [List.all_append, Bool.and_eq_true]
           repeat' apply And.intro
           all_goals first | rfl | exact hite _ _ _ rfl)
  · intro runeDepth assetDepth
    rfl

/-- Claim C7: the depth snapshot update succeeds exactly when no pool
changed (so no insert runs) or both inserts succeed with an affected row
count equal to the number of emitted rows; any insert failure, failing
RowsAffected, or count mismatch on either insert makes update return the
error instead. -/
theorem update_ok_iff (sm : SnapshotManager) (height : Int)
    (assetCur runeCur : StrIntMap) (exec1 exec2 : Except String ExecResult) :
    (sm.update height assetCur runeCur exec1 exec2).2 = .ok () ↔
      (updateRows sm height assetCur runeCur = [] ∨
       (∃ r1 r2 : ExecResult,
         exec1 = .ok r1 ∧
         r1.rowsAffected =
           .ok ((updateRows sm height assetCur runeCur).length : Int) ∧
         exec2 = .ok r2 ∧
         r2.rowsAffected =
           .ok ((updateRows sm height assetCur runeCur).length : Int))) := by
  unfold SnapshotManager.update
  by_cases h0 : (updateRows sm height assetCur runeCur).length = 0
  · simp [h0, List.length_eq_zero.mp h0]
  · rw [if_neg h0]
    simp only [List.length_eq_zero] at h0
    cases exec1 with
    | error e => simp [h0]
    | ok r1 =>
      cases hr1 : r1.rowsAffected with
      | error e => simp [h0, hr1]
      | ok n1 =>
        by_cases hn1 : n1 = ((updateRows sm height assetCur runeCur).length : Int)
        · subst hn1
          cases exec2 with
          | error e => simp [h0, hr1]
          | ok r2 =>
            cases hr2 : r2.rowsAffected with
            | error e => simp [h0, hr1, hr2]
            | ok n2 =>
              by_cases hn2 : n2 = ((updateRows sm height assetCur runeCur).length : Int)
              · subst hn2
                simp [h0, hr1, hr2]
              · simp [h0, hr1, hr2, hn2]
        · simp [h0, hr1, hn1]

/-- Claim C10: each point-in-time lookup of the timeseries package (Pools,
PoolStatus, StakeAddrs, Mimir, StatusPerNode) replaces a zero moment by the
last committed timestamp before querying, and for a moment strictly after
the last committed timestamp returns the beyond-last error with no result
and without issuing any database query. -/
theorem lookups_moment_guard (env : LookupEnv) (pool : String) (moment : Int) :
    (timeIsZero moment = true →
      (Pools env moment).2 = [(poolsQuery, env.lastBlock.timestamp)] ∧
      (PoolStatus env pool moment).2 =
        [(poolStatusQuery, env.lastBlock.timestamp)] ∧
      (StakeAddrs env moment).2 = [(stakeAddrsQuery, env.lastBlock.timestamp)] ∧
      (Mimir env moment).2 = [(mimirQuery, env.lastBlock.timestamp)] ∧
      (StatusPerNode env moment).2 =
        [(newNodesQuery, env.lastBlock.timestamp),
         (statusPerNodeQuery, env.lastBlock.timestamp)]) ∧
    (timeIsZero moment = false → env.lastBlock.timestamp < moment →
      Pools env moment = (.error errBeyondLast, []) ∧
      PoolStatus env pool moment = (.error errBeyondLast, []) ∧
      StakeAddrs env moment = (.error errBeyondLast, []) ∧
      Mimir env moment = (.error errBeyondLast, []) ∧
      StatusPerNode env moment = (.error errBeyondLast, [])) := by
  constructor
  · intro hz
    refine ⟨?_, ?_, ?_, ?_, ?_⟩ <;>
      simp [Pools, PoolStatus, StakeAddrs, Mimir, StatusPerNode, newNodes, hz]
  · intro hz hlt
    refine ⟨?_, ?_, ?_, ?_, ?_⟩ <;>
      simp [Pools, PoolStatus, StakeAddrs, Mimir, StatusPerNode, hz, hlt,
        not_le.mpr hlt]

/-- Witness for C10 at a concrete environment: the zero moment resolves to
the last committed timestamp 50, and moment 51 is rejected with the
beyond-last error and no issued query. -/
theorem lookups_moment_guard_witness :
    (Pools envFifty goTimeZeroNanos).2 = [(poolsQuery, 50)] ∧
    StatusPerNode envFifty 51 = (.error errBeyondLast, []) := by
  have hz := lookups_moment_guard envFifty "BNB.BNB" goTimeZeroNanos
  have hb := lookups_moment_guard envFifty "BNB.BNB" 51
  exact ⟨(hz.1 (by decide)).1, (hb.2 (by decide) (by decide)).2.2.2.2⟩

/-- Helper for C6: one transaction of events folds to the successfully
decoded deliveries appended to the accumulator, with one log line per
failing event. -/
theorem foldl_demuxStep_eq {R : Type} (d : Decoders R) (m : Metadata)
    (l : List AbciEvent) :
    ∀ acc : List (Delivery R) × List String,
      l.foldl (demuxStep d m) acc =
        (acc.1 ++ l.filterMap (fun e => (demuxEvent d e m).toOption),
         acc.2 ++ l.flatMap (demuxLogOf d m)) := by
  induction l with
  | nil => intro acc; simp
  | cons e t ih =>
    intro acc
    rw [List.foldl_cons, ih]
    cases h : demuxEvent d e m with
    | ok dv =>
      simp [demuxStep, demuxLogOf, h, Except.toOption]
    | error err =>
      simp [demuxStep, demuxLogOf, h, Except.toOption]

/-- Helper for C6: Demux.Block delivers exactly the decodable events of the
block in order and logs one line per failing event. -/
theorem demuxBlock_eq {R : Type} (d : Decoders R) (txs : List (List AbciEvent))
    (m : Metadata) :
    demuxBlock d txs m =
      (txs.flatten.filterMap (fun e => (demuxEvent d e m).toOption),
       txs.flatten.flatMap (demuxLogOf d m)) := by
  unfold demuxBlock
  suffices h : ∀ acc : List (Delivery R) × List String,
      txs.foldl (fun acc tx => tx.foldl (demuxStep d m) acc) acc =
        (acc.1 ++ txs.flatten.filterMap (fun e => (demuxEvent d e m).toOption),
         acc.2 ++ txs.flatten.flatMap (demuxLogOf d m)) by
    simpa using h ([], [])
  induction txs with
  | nil => intro acc; simp
  | cons tx rest ih =>
    intro acc
    rw [List.foldl_cons, foldl_demuxStep_eq, ih]
    simp

/-- Claim C6: Demux.Block returns no error; an event of unknown type or
with undecodable attributes contributes a log line and is skipped, while
every other event of the block is still delivered to the Listener in
order.  Deliveries are exactly the successfully decoded events, the log
has one line per failing event, and every type string outside the ten
known ones fails with the unknown-type error. -/
theorem demuxBlock_skips_only_failing_events {R : Type} (d : Decoders R)
    (m : Metadata) (txs : List (List AbciEvent)) :
    (demuxBlock d txs m).1 =
      txs.flatten.filterMap (fun e => (demuxEvent d e m).toOption) ∧
    (demuxBlock d txs m).2 = txs.flatten.flatMap (demuxLogOf d m) ∧
    (∀ e : AbciEvent, e.type ∉ knownEventTypes →
      demuxEvent d e m = .error "unknown event type") := by
  refine ⟨by rw [demuxBlock_eq], by rw [demuxBlock_eq], ?_⟩
  intro e he
  unfold demuxEvent
  split <;> simp_all [knownEventTypes]

/-- Witness for C6: with decoders that accept every attribute bag, a block
holding an add event, an unknown-typed event and a swap event delivers the
add and the swap and rejects the middle event with the unknown-type error. -/
theorem demuxBlock_skips_only_failing_events_witness :
    (demuxBlock unitDecoders [[⟨"add", []⟩, ⟨"bogus", []⟩, ⟨"swap", []⟩]]
        ⟨7⟩).1 = [.onAdd () ⟨7⟩, .onSwap () ⟨7⟩] ∧
    demuxEvent unitDecoders ⟨"bogus", []⟩ ⟨7⟩ = .error "unknown event type" := by
  have h := demuxBlock_skips_only_failing_events unitDecoders ⟨7⟩
    [[⟨"add", []⟩, ⟨"bogus", []⟩, ⟨"swap", []⟩]]
  exact ⟨by rw [h.1]; rfl, h.2.2 ⟨"bogus", []⟩ (by decide)⟩

/-- Helper for C2: the difference flag of diffAtKey is exactly the
disequality of the two Option-valued lookups, so presence matters: a key
present on one side only counts as different even when the present value
is zero. -/
theorem diffAtKey_fst_iff (md : MapDiff) (pool : String) (newMap : StrIntMap) :
    (md.diffAtKey pool newMap).1 = true ↔
      md.snapshot.lookup pool ≠ newMap.lookup pool := by
  unfold MapDiff.diffAtKey
  cases hnew : newMap.lookup pool <;> cases hold : md.snapshot.lookup pool <;>
    simp [hnew, hold, bne_iff_ne]

/-- Helper for C2: the value diffAtKey reports is the current map entry
with absent entries read as zero. -/
theorem diffAtKey_snd (md : MapDiff) (pool : String) (newMap : StrIntMap) :
    (md.diffAtKey pool newMap).2 = (newMap.lookup pool).getD 0 := by
  unfold MapDiff.diffAtKey
  cases hnew : newMap.lookup pool <;> simp [hnew]

/-- Helper for C2: a successful lookup means the key occurs among the map
keys. -/
theorem lookup_isSome_mem_keys (l : StrIntMap) (q : String)
    (h : (l.lookup q).isSome) : q ∈ l.map Prod.fst := by
  induction l with
  | nil => simp [List.lookup] at h
  | cons p t ih =>
    obtain ⟨k, v⟩ := p
    rw [List.lookup] at h
    cases hq : q == k with
    | true => simp [beq_iff_eq.mp hq]
    | false =>
      rw [hq] at h
      simp only [List.map_cons, List.mem_cons]
      exact Or.inr (ih h)

/-- Helper for C2: a pool whose Option-valued entry differs between a
current map and its snapshot on either side occurs in the accumulated pool
name union. -/
theorem mem_poolNames_of_ne (assetCur runeCur snapAsset snapRune : StrIntMap)
    (q : String)
    (h : snapAsset.lookup q ≠ assetCur.lookup q ∨
         snapRune.lookup q ≠ runeCur.lookup q) :
    q ∈ poolNamesOf assetCur runeCur snapAsset snapRune := by
  unfold poolNamesOf
  rw [List.mem_dedup]
  simp only [List.mem_append]
  rcases h with h | h
  · by_cases ha : (assetCur.lookup q).isSome
    · exact Or.inl (Or.inl (Or.inl (lookup_isSome_mem_keys _ _ ha)))
    · rw [Option.not_isSome_iff_eq_none] at ha
      rw [ha] at h
      have hs : (snapAsset.lookup q).isSome :=
        Option.ne_none_iff_isSome.mp h
      exact Or.inl (Or.inr (lookup_isSome_mem_keys _ _ hs))
  · by_cases hr : (runeCur.lookup q).isSome
    · exact Or.inl (Or.inl (Or.inr (lookup_isSome_mem_keys _ _ hr)))
    · rw [Option.not_isSome_iff_eq_none] at hr
      rw [hr] at h
      have hs : (snapRune.lookup q).isSome :=
        Option.ne_none_iff_isSome.mp h
      exact Or.inr (lookup_isSome_mem_keys _ _ hs)

/-- Helper for C2: the emitted pool column is the name union filtered by
the diff condition, so each pool appears at most once. -/
theorem updateRows_map_pool (sm : SnapshotManager) (height : Int)
    (assetCur runeCur : StrIntMap) :
    (updateRows sm height assetCur runeCur).map (fun row => row.2.1) =
      (poolNamesOf assetCur runeCur sm.assetE8DepthSnapshot.snapshot
        sm.runeE8DepthSnapshot.snapshot).filter (fun pool =>
          (sm.assetE8DepthSnapshot.diffAtKey pool assetCur).1 ||
          (sm.runeE8DepthSnapshot.diffAtKey pool runeCur).1) := by
  unfold updateRows
  generalize poolNamesOf assetCur runeCur sm.assetE8DepthSnapshot.snapshot
    sm.runeE8DepthSnapshot.snapshot = names
  induction names with
  | nil => rfl
  | cons p t ih =>
    rw [List.filterMap_cons, List.filter_cons]
    by_cases hc : (sm.assetE8DepthSnapshot.diffAtKey p assetCur).1 ||
        (sm.runeE8DepthSnapshot.diffAtKey p runeCur).1
    · simp only [hc, if_pos]
      simp only [List.map_cons, ih]
    · simp only [hc, if_neg]
      simp only [Bool.false_eq_true, if_false, ih]

/-- Claim C2 amended: update emits exactly one row per pool whose
Option-valued entry (presence or value) in either current depth map
differs from the previous snapshot entry; the row carries the current
values with absent entries read as zero.  In particular a pool absent from
the current maps yields a zero row if and only if it was present in the
previous snapshot, even when its previous value was zero. -/
theorem updateRows_characterization (sm : SnapshotManager) (height : Int)
    (assetCur runeCur : StrIntMap) :
    (∀ (h0 : Int) (q : String) (a r : Int),
      (h0, q, a, r) ∈ updateRows sm height assetCur runeCur ↔
        (h0 = height ∧
         (sm.assetE8DepthSnapshot.snapshot.lookup q ≠ assetCur.lookup q ∨
          sm.runeE8DepthSnapshot.snapshot.lookup q ≠ runeCur.lookup q) ∧
         a = (assetCur.lookup q).getD 0 ∧
         r = (runeCur.lookup q).getD 0)) ∧
    ((updateRows sm height assetCur runeCur).map fun row => row.2.1).Nodup := by
  constructor
  · intro h0 q a r
    unfold updateRows
    rw [List.mem_filterMap]
    constructor
    · rintro ⟨pool, hmem, hf⟩
      simp only at hf
      by_cases hc : (sm.assetE8DepthSnapshot.diffAtKey pool assetCur).1 ||
          (sm.runeE8DepthSnapshot.diffAtKey pool runeCur).1
      · rw [if_pos hc] at hf
        obtain ⟨hh, hq, ha, hr⟩ :
            height = h0 ∧ pool = q ∧
            (sm.assetE8DepthSnapshot.diffAtKey pool assetCur).2 = a ∧
            (sm.runeE8DepthSnapshot.diffAtKey pool runeCur).2 = r := by
          have := hf
          simp only [Option.some.injEq, Prod.mk.injEq] at this
          exact ⟨this.1, this.2.1, this.2.2.1, this.2.2.2⟩
        subst hq
        refine ⟨hh.symm, ?_, ?_, ?_⟩
        · rcases Bool.or_eq_true _ _ |>.mp hc with hc1 | hc1
          · exact Or.inl ((diffAtKey_fst_iff _ _ _).mp hc1)
          · exact Or.inr ((diffAtKey_fst_iff _ _ _).mp hc1)
        · rw [← ha, diffAtKey_snd]
        · rw [← hr, diffAtKey_snd]
      · rw [if_neg hc] at hf
        exact absurd hf (by simp)
    · rintro ⟨hh, hne, ha, hr⟩
      subst hh
      refine ⟨q, mem_poolNames_of_ne _ _ _ _ _ hne, ?_⟩
      have hc : ((sm.assetE8DepthSnapshot.diffAtKey q assetCur).1 ||
          (sm.runeE8DepthSnapshot.diffAtKey q runeCur).1) = true := by
        rcases hne with hne | hne
        · exact Bool.or_eq_true _ _ |>.mpr
            (Or.inl ((diffAtKey_fst_iff _ _ _).mpr hne))
        · exact Bool.or_eq_true _ _ |>.mpr
            (Or.inr ((diffAtKey_fst_iff _ _ _).mpr hne))
      simp only []
      rw [if_pos hc, diffAtKey_snd, diffAtKey_snd, ← ha, ← hr]
  · rw [updateRows_map_pool]
    exact (List.nodup_dedup _).filter _

/-- Claim C2 counterexample: with pool P at depth zero in both previous
snapshots and empty current maps, update still emits the zero row for P,
although the zero-defaulted depths are unchanged; so the claim, which
allows a zero row for an absent pool only when the previous value was
non-zero, fails on the code. -/
theorem updateRows_zero_previous_counterexample : ¬ c2Stated := by
  intro hcl
  have h := hcl smZeroP 1 [] [] "P"
  revert h
  decide

/-- Helper for C3: decoding after encNat recovers the number and the
remaining bytes. -/
theorem decNat_encNat (n : Nat) (rest : List Nat) :
    decNat (encNat n ++ rest) = some (n, rest) := by
  unfold encNat decNat
  rw [List.cons_append]
  have hle : (Nat.digits 256 n).length ≤ (Nat.digits 256 n ++ rest).length := by
    simp
  simp only [if_pos hle]
  rw [List.take_left, List.drop_left, Nat.ofDigits_digits]

/-- Helper for C3: unzigzag is a left inverse of zigzag. -/
theorem unzigzag_zigzag (i : Int) : unzigzag (zigzag i) = i := by
  unfold zigzag unzigzag
  by_cases h : 0 ≤ i
  · rw [if_pos h]
    have h2 : 2 * i.toNat % 2 = 0 := by omega
    rw [if_pos h2]
    have h3 : 2 * i.toNat / 2 = i.toNat := by omega
    rw [h3]
    omega
  · rw [if_neg h]
    have hk : 1 ≤ (-i).toNat := by omega
    have h2 : ¬((2 * (-i).toNat - 1) % 2 = 0) := by omega
    rw [if_neg h2]
    have h3 : (2 * (-i).toNat - 1 + 1) / 2 = (-i).toNat := by omega
    rw [h3]
    omega

/-- Helper for C3: decoding after encInt recovers the integer. -/
theorem decInt_encInt (i : Int) (rest : List Nat) :
    decInt (encInt i ++ rest) = some (i, rest) := by
  unfold encInt decInt
  rw [decNat_encNat]
  simp [unzigzag_zigzag]

/-- Helper for C3: decoding after encString recovers the string. -/
theorem decString_encString (s : String) (rest : List Nat) :
    decString (encString s ++ rest) = some (s, rest) := by
  unfold encString decString
  rw [List.append_assoc, decNat_encNat]
  simp only []
  rw [if_pos (by simp)]
  rw [List.take_left' (by simp), List.drop_left' (by simp)]
  simp [Function.comp_def]

/-- Helper for C3: decoding a known number of bindings after their
encoding recovers the binding list. -/
theorem decPairs_encPairs (m : StrIntMap) (rest : List Nat) :
    decPairs m.length (m.flatMap encPair ++ rest) = some (m, rest) := by
  induction m generalizing rest with
  | nil => simp [decPairs]
  | cons p t ih =>
    obtain ⟨k, v⟩ := p
    rw [List.length_cons, List.flatMap_cons]
    unfold decPairs
    rw [encPair, List.append_assoc, List.append_assoc, decString_encString]
    simp only []
    rw [decInt_encInt]
    simp only []
    rw [ih]

/-- Helper for C3: decoding after encDepthMap recovers the map. -/
theorem decDepthMap_encDepthMap (m : StrIntMap) (rest : List Nat) :
    decDepthMap (encDepthMap m ++ rest) = some (m, rest) := by
  unfold encDepthMap decDepthMap
  rw [List.append_assoc, decNat_encNat]
  simp only []
  rw [decPairs_encPairs]

/-- Helper for C3: decoding after encAggTrack recovers the aggregate
state. -/
theorem decAggTrack_encAggTrack (t : AggTrack) (rest : List Nat) :
    decAggTrack (encAggTrack t ++ rest) = some (t, rest) := by
  unfold encAggTrack decAggTrack
  simp [List.append_assoc, decNat_encNat, decDepthMap_encDepthMap]

/-- Claim C3: serializing the aggregate state as CommitBlock does and
restoring it as loadBlockFromDB and Setup do yields recorder depth maps
and a block track equal to the committed ones, for every state the
recorder can hold. -/
theorem Setup_after_CommitBlock_roundtrip (st : TimeseriesState)
    (height timestamp : Int) (hash : List Nat) :
    Setup (commitRow st height timestamp hash) =
      .ok (⟨st.totals.assetE8DepthPerPool, st.totals.runeE8DepthPerPool⟩,
           commitTrack st height timestamp hash) := by
  unfold Setup loadBlockFromDB commitRow
  have h := decAggTrack_encAggTrack (commitTrack st height timestamp hash).agg []
  rw [List.append_nil] at h
  rw [h]
  rfl

/-- Helper for C4 and C1: the descending validation loop of fetchBlocks
accepts a metadata list exactly when adjacent heights strictly decrease. -/
theorem descendingOK_iff_chain (l : List BlockMeta) :
    descendingOK l = true ↔ l.Chain' (fun a b => b.height < a.height) := by
  induction l with
  | nil => simp [descendingOK]
  | cons a t ih =>
    cases t with
    | nil => simp [descendingOK]
    | cons b rest =>
      simp only [descendingOK, Bool.and_eq_true, decide_eq_true_eq,
        List.chain'_cons, ih]

/-- Helper for C4 and C1: in a strictly descending metadata list the first
entry has the maximal height. -/
theorem chain_desc_head_max (m0 : BlockMeta) (rest : List BlockMeta)
    (h : (m0 :: rest).Chain' (fun a b => b.height < a.height)) :
    ∀ m ∈ m0 :: rest, m.height ≤ m0.height := by
  induction rest generalizing m0 with
  | nil =>
    intro m hm
    rw [List.mem_singleton] at hm
    rw [hm]
  | cons b t ih =>
    intro m hm
    rw [List.chain'_cons] at h
    rcases List.mem_cons.mp hm with rfl | hm2
    · exact le_refl _
    · exact (ih b h.2 m hm2).trans (le_of_lt h.1)

/-- Helper for C4 and C1: in a strictly descending metadata list the last
entry has the minimal height. -/
theorem chain_desc_getLastD_min (rest : List BlockMeta) :
    ∀ m0 d : BlockMeta,
      (m0 :: rest).Chain' (fun a b => b.height < a.height) →
      ∀ m ∈ m0 :: rest, ((m0 :: rest).getLastD d).height ≤ m.height := by
  induction rest with
  | nil =>
    intro m0 d _ m hm
    rw [List.mem_singleton] at hm
    rw [hm, List.getLastD_cons, List.getLastD_nil]
  | cons b t ih =>
    intro m0 d h m hm
    rw [List.chain'_cons] at h
    rw [List.getLastD_cons]
    rcases List.mem_cons.mp hm with rfl | hm2
    · exact (ih b m h.2 b (List.mem_cons_self b t)).trans (le_of_lt h.1)
    · exact ih b m0 h.2 m hm2

/-- Claim C4: fetchBlocks returns an error and delivers no blocks whenever
the BlockchainInfo metadata is not strictly descending, or some returned
height lies outside the window from offset to offset+19, or some batched
BlockResults response carries a height different from the requested one;
and Follow surfaces the error fatally without retrying, emitting nothing
from that iteration. -/
theorem fetchBlocks_validation_error (node : ChainNode) (offset : Int)
    (hne : node.info offset (offset + 19) ≠ [])
    (hbad : descendingOK (node.info offset (offset + 19)) = false ∨
            (∃ m ∈ node.info offset (offset + 19),
               m.height < offset ∨ offset + 19 < m.height) ∨
            (∃ m ∈ node.info offset (offset + 19),
               (node.blockResults m.height).height ≠ m.height)) :
    (∃ e, fetchBlocks node offset = .error e) ∧
    ∀ (polls : Nat → Int) (fuel : Nat) (latest : Int) (pollIdx : Nat),
      ¬ offset > latest →
      ∃ e, followLoop node polls (fuel + 1) latest offset pollIdx =
        ⟨[], offset, .fatal e⟩ := by
  have hfetch : ∃ e, fetchBlocks node offset = .error e := by
    cases hinfo : node.info offset (offset + 19) with
    | nil => exact absurd hinfo hne
    | cons m0 rest =>
      rw [hinfo] at hbad
      unfold fetchBlocks
      rw [hinfo]
      rw [if_neg (by simp)]
      by_cases hd : descendingOK (m0 :: rest) = true
      · rw [if_pos hd]
        have hchain := (descendingOK_iff_chain _).mp hd
        by_cases hr : (decide (((m0 :: rest).headD ⟨0, 0, []⟩).height > offset + 19) ||
            decide (((m0 :: rest).getLastD ⟨0, 0, []⟩).height < offset)) = true
        · rw [if_pos hr]
          exact ⟨_, rfl⟩
        · rw [if_neg hr]
          simp only [Bool.or_eq_true, decide_eq_true_eq, not_or, not_lt,
            List.headD_cons] at hr
          have hmis : ∃ m ∈ m0 :: rest,
              (node.blockResults m.height).height ≠ m.height := by
            rcases hbad with hbad | hbad | hbad
            · exact absurd hd (by rw [hbad]; simp)
            · obtain ⟨m, hm, hout⟩ := hbad
              rcases hout with hout | hout
              · exact absurd
                  ((chain_desc_getLastD_min rest m0 ⟨0, 0, []⟩ hchain m hm).trans_lt
                    hout)
                  (not_lt.mpr hr.2)
              · exact absurd
                  (hout.trans_le (chain_desc_head_max m0 rest hchain m hm))
                  (not_lt.mpr hr.1)
            · exact hbad
          cases ht : node.trigger offset with
          | error e => exact ⟨e, rfl⟩
          | ok u =>
            obtain ⟨m, hm, hne2⟩ := hmis
            have hall : (assembleBatch node (m0 :: rest)).all
                (fun b => b.results.height == b.height) = false := by
              rw [List.all_eq_false]
              refine ⟨{ height := m.height, time := m.time, hash := m.hash
                        results := node.blockResults m.height }, ?_, ?_⟩
              · exact List.mem_map_of_mem _ (List.mem_reverse.mpr hm)
              · simp [hne2]
            refine ⟨"Tendermint RPC BlockResults height mismatch", ?_⟩
            rw [hall]
            rfl
      · rw [if_neg hd]
        exact ⟨_, rfl⟩
  refine ⟨hfetch, ?_⟩
  intro polls fuel latest pollIdx hoff
  obtain ⟨e, he⟩ := hfetch
  refine ⟨e, ?_⟩
  unfold followLoop
  rw [if_neg hoff, he]

/-- Witness for C4: a node answering with ascending metadata fails the
strictly-descending validation; fetchBlocks errors and the Follow loop
exits fatally with nothing emitted. -/
theorem fetchBlocks_validation_error_witness :
    (∃ e, fetchBlocks badOrderNode 1 = .error e) ∧
    ∃ e, followLoop badOrderNode (fun _ => 5) 3 5 1 1 = ⟨[], 1, .fatal e⟩ := by
  have h := fetchBlocks_validation_error badOrderNode 1 (by decide)
    (Or.inl (by decide))
  exact ⟨h.1, h.2 (fun _ => 5) 2 5 1 (by decide)⟩

/-- Case equation of the Follow loop: exhausted chain after a re-poll. -/
theorem followLoop_succ_poll_stop (node : ChainNode) (polls : Nat → Int)
    (fuel : Nat) (latest offset : Int) (pollIdx : Nat)
    (hoff : offset > latest) (hoff2 : offset > polls pollIdx) :
    followLoop node polls (fuel + 1) latest offset pollIdx =
      ⟨[], offset, .noData⟩ := by
  rw [followLoop]
  rw [if_pos hoff, if_pos hoff2]

/-- Case equation of the Follow loop: a re-poll raised the known latest
height and the iteration continues. -/
theorem followLoop_succ_poll_cont (node : ChainNode) (polls : Nat → Int)
    (fuel : Nat) (latest offset : Int) (pollIdx : Nat)
    (hoff : offset > latest) (hoff2 : ¬ offset > polls pollIdx) :
    followLoop node polls (fuel + 1) latest offset pollIdx =
      followLoop node polls fuel (polls pollIdx) offset (pollIdx + 1) := by
  rw [followLoop]
  rw [if_pos hoff, if_neg hoff2]

/-- Case equation of the Follow loop: a fetch error is fatal. -/
theorem followLoop_succ_err (node : ChainNode) (polls : Nat → Int)
    (fuel : Nat) (latest offset : Int) (pollIdx : Nat) (e : String)
    (hoff : ¬ offset > latest) (hf : fetchBlocks node offset = .error e) :
    followLoop node polls (fuel + 1) latest offset pollIdx =
      ⟨[], offset, .fatal e⟩ := by
  rw [followLoop]
  rw [if_neg hoff, hf]

/-- Case equation of the Follow loop: an empty fetch continues the loop. -/
theorem followLoop_succ_nil (node : ChainNode) (polls : Nat → Int)
    (fuel : Nat) (latest offset : Int) (pollIdx : Nat)
    (hoff : ¬ offset > latest) (hf : fetchBlocks node offset = .ok []) :
    followLoop node polls (fuel + 1) latest offset pollIdx =
      followLoop node polls fuel latest offset pollIdx := by
  rw [followLoop]
  rw [if_neg hoff, hf]

/-- Case equation of the Follow loop: a non-empty batch is emitted block
by block, the offset advancing to each height plus one, and the loop
continues. -/
theorem followLoop_succ_batch (node : ChainNode) (polls : Nat → Int)
    (fuel : Nat) (latest offset : Int) (pollIdx : Nat) (b : Block)
    (bs : List Block)
    (hoff : ¬ offset > latest) (hf : fetchBlocks node offset = .ok (b :: bs)) :
    followLoop node polls (fuel + 1) latest offset pollIdx =
      ⟨(b :: bs) ++ (followLoop node polls fuel latest
          ((b :: bs).foldl (fun _ blk => blk.height + 1) offset)
          pollIdx).emitted,
       (followLoop node polls fuel latest
          ((b :: bs).foldl (fun _ blk => blk.height + 1) offset)
          pollIdx).offset,
       (followLoop node polls fuel latest
          ((b :: bs).foldl (fun _ blk => blk.height + 1) offset)
          pollIdx).exit⟩ := by
  rw [followLoop]
  rw [if_neg hoff, hf]

/-- Helper for C1: a successful fetchBlocks batch has strictly ascending
heights, all at or above the requested offset. -/
theorem fetchBlocks_ok_props (node : ChainNode) (offset : Int)
    (batch : List Block) (h : fetchBlocks node offset = .ok batch) :
    (batch.map Block.height).Pairwise (· < ·) ∧
    ∀ b ∈ batch, offset ≤ b.height := by
  unfold fetchBlocks at h
  cases hinfo : node.info offset (offset + 19) with
  | nil =>
    rw [hinfo] at h
    simp only [List.isEmpty_nil, if_true] at h
    obtain rfl : ([] : List Block) = batch := by
      injection h
    simp
  | cons m0 rest =>
    rw [hinfo] at h
    rw [if_neg (by simp)] at h
    by_cases hd : descendingOK (m0 :: rest) = true
    · rw [if_pos hd] at h
      have hchain := (descendingOK_iff_chain _).mp hd
      by_cases hr : (decide (((m0 :: rest).headD ⟨0, 0, []⟩).height > offset + 19) ||
          decide (((m0 :: rest).getLastD ⟨0, 0, []⟩).height < offset)) = true
      · rw [if_pos hr] at h
        exact absurd h (by simp)
      · rw [if_neg hr] at h
        simp only [Bool.or_eq_true, decide_eq_true_eq, not_or, not_lt,
          List.headD_cons] at hr
        cases ht : node.trigger offset with
        | error e =>
          rw [ht] at h
          exact absurd h (by simp)
        | ok u =>
          rw [ht] at h
          by_cases hall : ((assembleBatch node (m0 :: rest)).all
              fun b => b.results.height == b.height) = true
          · rw [if_pos hall] at h
            obtain rfl : assembleBatch node (m0 :: rest) = batch := by
              simpa using h
            constructor
            · have hmap : (assembleBatch node (m0 :: rest)).map Block.height =
                  ((m0 :: rest).map BlockMeta.height).reverse := by
                unfold assembleBatch
                rw [List.map_map, ← List.map_reverse]
                rfl
              rw [hmap]
              have hchain2 : ((m0 :: rest).map BlockMeta.height).Chain'
                  (fun a b => b < a) := by
                rw [List.chain'_map]
                exact hchain
              have hchain3 : (((m0 :: rest).map BlockMeta.height).reverse).Chain'
                  (· < ·) := by
                rw [List.chain'_reverse]
                exact hchain2
              exact List.chain'_iff_pairwise.mp hchain3
            · intro b hb
              unfold assembleBatch at hb
              rw [List.mem_map] at hb
              obtain ⟨m, hm, rfl⟩ := hb
              rw [List.mem_reverse] at hm
              exact hr.2.trans (chain_desc_getLastD_min rest m0 ⟨0, 0, []⟩
                hchain m hm)
          · rw [if_neg hall] at h
            exact absurd h (by simp)
    · rw [if_neg hd] at h
      exact absurd h (by simp)

/-- Helper for C1: every block of a strictly ascending batch lies below
the offset the Follow loop advances to after emitting the batch. -/
theorem height_lt_foldl_next (bs : List Block) :
    ∀ b : Block, (b :: bs).Pairwise (fun x y : Block => x.height < y.height) →
      ∀ s : Int, ∀ x ∈ b :: bs,
        x.height < (b :: bs).foldl (fun _ blk => blk.height + 1) s := by
  induction bs with
  | nil =>
    intro b _ s x hx
    rw [List.mem_singleton] at hx
    rw [hx]
    simp [List.foldl_cons]
  | cons c t ih =>
    intro b hp s x hx
    rw [List.pairwise_cons] at hp
    rw [List.foldl_cons]
    rcases List.mem_cons.mp hx with hxb | hx2
    · rw [hxb]
      exact (hp.1 c (List.mem_cons_self c t)).trans
        (ih c hp.2 _ c (List.mem_cons_self c t))
    · exact ih c hp.2 _ x hx2

/-- Helper for C1: every bounded run of the Follow loop emits blocks with
strictly ascending heights, all at or above its current offset. -/
theorem followLoop_ascending (node : ChainNode) (polls : Nat → Int) :
    ∀ (fuel : Nat) (latest offset : Int) (pollIdx : Nat),
      ((followLoop node polls fuel latest offset pollIdx).emitted.map
        Block.height).Pairwise (· < ·) ∧
      ∀ b ∈ (followLoop node polls fuel latest offset pollIdx).emitted,
        offset ≤ b.height := by
  intro fuel
  induction fuel with
  | zero =>
    intro latest offset pollIdx
    simp [followLoop]
  | succ fuel ih =>
    intro latest offset pollIdx
    by_cases hoff : offset > latest
    · by_cases hoff2 : offset > polls pollIdx
      · rw [followLoop_succ_poll_stop node polls fuel latest offset pollIdx
          hoff hoff2]
        simp
      · rw [followLoop_succ_poll_cont node polls fuel latest offset pollIdx
          hoff hoff2]
        exact ih (polls pollIdx) offset (pollIdx + 1)
    · cases hf : fetchBlocks node offset with
      | error e =>
        rw [followLoop_succ_err node polls fuel latest offset pollIdx e hoff hf]
        simp
      | ok batch =>
        cases batch with
        | nil =>
          rw [followLoop_succ_nil node polls fuel latest offset pollIdx hoff hf]
          exact ih latest offset pollIdx
        | cons b bs =>
          rw [followLoop_succ_batch node polls fuel latest offset pollIdx b bs
            hoff hf]
          obtain ⟨hb_sorted, hb_ge⟩ := fetchBlocks_ok_props node offset
            (b :: bs) hf
          obtain ⟨ih1, ih2⟩ := ih latest
            ((b :: bs).foldl (fun _ blk => blk.height + 1) offset) pollIdx
          have hpb : (b :: bs).Pairwise (fun x y : Block => x.height < y.height) :=
            List.pairwise_map.mp hb_sorted
          have hlt : ∀ x ∈ b :: bs,
              x.height < (b :: bs).foldl (fun _ blk => blk.height + 1) offset :=
            fun x hx => height_lt_foldl_next bs b hpb offset x hx
          constructor
          · simp only [List.map_append]
            rw [List.pairwise_append]
            refine ⟨hb_sorted, ih1, ?_⟩
            intro x hx y hy
            rw [List.mem_map] at hx hy
            obtain ⟨xb, hxb, rfl⟩ := hx
            obtain ⟨yb, hyb, rfl⟩ := hy
            exact (hlt xb hxb).trans_le (ih2 yb hyb)
          · intro x hx
            simp only [List.mem_append] at hx
            rcases hx with hx | hx
            · exact hb_ge x hx
            · have h1 : offset ≤ b.height := hb_ge b (List.mem_cons_self b bs)
              have h2 : b.height <
                  (b :: bs).foldl (fun _ blk => blk.height + 1) offset :=
                hlt b (List.mem_cons_self b bs)
              exact (le_of_lt (h1.trans_lt h2)).trans (ih2 x hx)

/-- The BlockchainInfo answer of the honest node. -/
theorem honestNode_info (L : Int) (tf : Int → Int) (hf : Int → List Nat)
    (mn mx : Int) :
    (honestNode L tf hf).info mn mx =
      descMetaRange tf hf mn ((min mx L - mn + 1).toNat) := rfl

/-- The batch trigger of the honest node always succeeds. -/
theorem honestNode_trigger (L : Int) (tf : Int → Int) (hf : Int → List Nat)
    (o : Int) : (honestNode L tf hf).trigger o = .ok () := rfl

/-- The contiguous descending range has strictly descending heights. -/
theorem descMetaRange_chain (tf : Int → Int) (hf : Int → List Nat) (mn : Int) :
    ∀ n : Nat,
      (descMetaRange tf hf mn n).Chain' (fun a b => b.height < a.height) := by
  intro n
  induction n with
  | zero => simp [descMetaRange]
  | succ n ih =>
    rw [descMetaRange, List.chain'_cons']
    refine ⟨?_, ih⟩
    intro y hy
    cases n with
    | zero => simp [descMetaRange] at hy
    | succ m =>
      rw [descMetaRange] at hy
      simp only [List.head?_cons, Option.mem_def, Option.some.injEq] at hy
      rw [← hy]
      show mn + (m : Int) < mn + ((m + 1 : Nat) : Int)
      push_cast
      omega

/-- The contiguous descending range passes the descending validation. -/
theorem descendingOK_descMetaRange (tf : Int → Int) (hf : Int → List Nat)
    (mn : Int) (n : Nat) :
    descendingOK (descMetaRange tf hf mn n) = true :=
  (descendingOK_iff_chain _).mpr (descMetaRange_chain tf hf mn n)

/-- The last entry of a non-empty contiguous descending range is its
lowest height mn. -/
theorem descMetaRange_getLastD (tf : Int → Int) (hf : Int → List Nat)
    (mn : Int) :
    ∀ (n : Nat) (d : BlockMeta),
      (descMetaRange tf hf mn (n + 1)).getLastD d = ⟨mn, tf mn, hf mn⟩ := by
  intro n
  induction n with
  | zero =>
    intro d
    show (⟨mn + ((0 : Nat) : Int), _, _⟩ : BlockMeta) = _
    simp
  | succ m ih =>
    intro d
    rw [descMetaRange, List.getLastD_cons]
    exact ih _

/-- blockRange grows at the top end. -/
theorem blockRange_snoc (tf : Int → Int) (hf : Int → List Nat) :
    ∀ (n : Nat) (mn : Int),
      blockRange tf hf mn (n + 1) =
        blockRange tf hf mn n ++
          [⟨mn + n, tf (mn + n), hf (mn + n), ⟨mn + n⟩⟩] := by
  intro n
  induction n with
  | zero =>
    intro mn
    simp [blockRange]
  | succ m ih =>
    intro mn
    rw [blockRange, ih (mn + 1)]
    conv_rhs => rw [blockRange]
    rw [show mn + 1 + (m : Int) = mn + ((m + 1 : Nat) : Int) from by
      push_cast; ring]
    simp

/-- Every block of a contiguous range carries a BlockResults response that
echoes its height. -/
theorem blockRange_all_results (tf : Int → Int) (hf : Int → List Nat) :
    ∀ (n : Nat) (mn : Int),
      ((blockRange tf hf mn n).all fun b => b.results.height == b.height) =
        true := by
  intro n
  induction n with
  | zero => intro mn; rfl
  | succ m ih =>
    intro mn
    rw [blockRange]
    simp only [List.all_cons, ih (mn + 1), Bool.and_true]
    simp

/-- The heights of a contiguous block range. -/
theorem blockRange_map_height (tf : Int → Int) (hf : Int → List Nat) :
    ∀ (n : Nat) (mn : Int),
      (blockRange tf hf mn n).map Block.height = ascHeights mn n := by
  intro n
  induction n with
  | zero => intro mn; rfl
  | succ m ih =>
    intro mn
    rw [blockRange, ascHeights]
    simp only [List.map_cons, ih (mn + 1)]

/-- The length of a contiguous block range. -/
theorem blockRange_length (tf : Int → Int) (hf : Int → List Nat) :
    ∀ (n : Nat) (mn : Int), (blockRange tf hf mn n).length = n := by
  intro n
  induction n with
  | zero => intro mn; rfl
  | succ m ih =>
    intro mn
    rw [blockRange]
    simp [ih (mn + 1)]

/-- After emitting a non-empty contiguous range the Follow offset advances
to just past its top height. -/
theorem blockRange_foldl (tf : Int → Int) (hf : Int → List Nat) :
    ∀ (n : Nat) (mn s : Int),
      (blockRange tf hf mn (n + 1)).foldl (fun _ blk => blk.height + 1) s =
        mn + ((n + 1 : Nat) : Int) := by
  intro n
  induction n with
  | zero =>
    intro mn s
    show mn + 1 = mn + ((1 : Nat) : Int)
    simp
  | succ m ih =>
    intro mn s
    rw [blockRange, List.foldl_cons, ih (mn + 1)]
    push_cast
    ring

/-- Contiguous height runs concatenate. -/
theorem ascHeights_append :
    ∀ (a : Nat) (s : Int) (b : Nat),
      ascHeights s a ++ ascHeights (s + a) b = ascHeights s (a + b) := by
  intro a
  induction a with
  | zero =>
    intro s b
    simp [ascHeights]
  | succ m ih =>
    intro s b
    rw [ascHeights, List.cons_append]
    rw [show s + ((m + 1 : Nat) : Int) = s + 1 + (m : Int) from by
      push_cast; ring]
    rw [ih (s + 1) b]
    rw [show m + 1 + b = (m + b) + 1 from by omega, ascHeights]

/-- One metadata entry contributes one assembled block at the top of the
batch. -/
theorem assembleBatch_cons (node : ChainNode) (x : BlockMeta)
    (l : List BlockMeta) :
    assembleBatch node (x :: l) =
      assembleBatch node l ++
        [⟨x.height, x.time, x.hash, node.blockResults x.height⟩] := by
  unfold assembleBatch
  rw [List.reverse_cons, List.map_append]
  rfl

/-- Assembling the honest descending range yields the ascending contiguous
block run. -/
theorem assembleBatch_descMetaRange (L : Int) (tf : Int → Int)
    (hf : Int → List Nat) :
    ∀ (n : Nat) (mn : Int),
      assembleBatch (honestNode L tf hf) (descMetaRange tf hf mn n) =
        blockRange tf hf mn n := by
  intro n
  induction n with
  | zero => intro mn; rfl
  | succ m ih =>
    intro mn
    rw [descMetaRange, assembleBatch_cons, ih mn, blockRange_snoc]
    rfl

/-- Helper for C1: against an honest node, fetchBlocks at an offset at or
below the latest height returns exactly the contiguous block run from
offset to min(offset + 19, latest). -/
theorem fetchBlocks_honest (L : Int) (tf : Int → Int) (hf : Int → List Nat)
    (offset : Int) (hle : offset ≤ L) :
    fetchBlocks (honestNode L tf hf) offset =
      .ok (blockRange tf hf offset
        ((min (offset + 19) L - offset + 1).toNat)) := by
  have hM : offset ≤ min (offset + 19) L := le_min (by omega) hle
  have hMle : min (offset + 19) L ≤ offset + 19 := min_le_left _ _
  obtain ⟨k', hk'⟩ : ∃ k', (min (offset + 19) L - offset + 1).toNat = k' + 1 :=
    ⟨(min (offset + 19) L - offset).toNat, by omega⟩
  have hcast : (k' : Int) = min (offset + 19) L - offset := by omega
  unfold fetchBlocks
  rw [honestNode_info, honestNode_trigger, hk']
  rw [if_neg (by rw [descMetaRange]; simp)]
  rw [if_pos (descendingOK_descMetaRange tf hf offset (k' + 1))]
  have hhead : ((descMetaRange tf hf offset (k' + 1)).headD ⟨0, 0, []⟩).height =
      offset + k' := by
    rw [descMetaRange]
    rfl
  have hlast : ((descMetaRange tf hf offset
      (k' + 1)).getLastD ⟨0, 0, []⟩).height = offset := by
    rw [descMetaRange_getLastD]
  rw [if_neg (by
    rw [hhead, hlast]
    simp only [Bool.or_eq_true, decide_eq_true_eq, not_or, not_lt]
    constructor
    · omega
    · omega)]
  rw [assembleBatch_descMetaRange]
  rw [if_pos (blockRange_all_results tf hf (k' + 1) offset)]

/-- Helper for C1: against an honest node the Follow loop emits exactly
the contiguous height run starting at its offset. -/
theorem followLoop_honest (L : Int) (tf : Int → Int) (hf : Int → List Nat) :
    ∀ (fuel : Nat) (offset : Int) (pollIdx : Nat),
      (followLoop (honestNode L tf hf) (fun _ => L) fuel L offset
        pollIdx).emitted.map Block.height =
      ascHeights offset
        (followLoop (honestNode L tf hf) (fun _ => L) fuel L offset
          pollIdx).emitted.length := by
  intro fuel
  induction fuel with
  | zero => intro offset pollIdx; rfl
  | succ fuel ih =>
    intro offset pollIdx
    by_cases hoff : offset > L
    · rw [followLoop_succ_poll_stop (honestNode L tf hf) (fun _ => L) fuel L
        offset pollIdx hoff hoff]
      rfl
    · have hle : offset ≤ L := not_lt.mp hoff
      have hf2 := fetchBlocks_honest L tf hf offset hle
      have hM : offset ≤ min (offset + 19) L := le_min (by omega) hle
      obtain ⟨k', hk'⟩ :
          ∃ k', (min (offset + 19) L - offset + 1).toNat = k' + 1 :=
        ⟨(min (offset + 19) L - offset).toNat, by omega⟩
      rw [hk'] at hf2
      have hcons : blockRange tf hf offset (k' + 1) =
          ⟨offset, tf offset, hf offset, ⟨offset⟩⟩ ::
            blockRange tf hf (offset + 1) k' := rfl
      rw [hcons] at hf2
      rw [followLoop_succ_batch (honestNode L tf hf) (fun _ => L) fuel L offset
        pollIdx _ _ hoff hf2]
      have hfold : (⟨offset, tf offset, hf offset, ⟨offset⟩⟩ ::
          blockRange tf hf (offset + 1) k').foldl
            (fun _ blk => blk.height + 1) offset =
          offset + ((k' + 1 : Nat) : Int) := by
        rw [← hcons]
        exact blockRange_foldl tf hf k' offset offset
      rw [hfold, ← hcons]
      simp only [List.map_append, List.length_append]
      rw [blockRange_map_height, blockRange_length]
      rw [ih (offset + ((k' + 1 : Nat) : Int)) pollIdx]
      rw [ascHeights_append]

/-- Claim C1 amended: every run of Client.Follow emits blocks in strictly
ascending height order with every height at or above the caller-supplied
offset; moreover, when the node answers BlockchainInfo with the full
contiguous descending range below its latest height and BlockResults
echoes each requested height, the emitted sequence is exactly offset,
offset+1, offset+2, and so on.  Validated-but-sparse BlockchainInfo
answers may skip heights, so contiguity holds only for such honest
nodes. -/
theorem follow_ascending_and_honest_contiguous :
    (∀ (node : ChainNode) (polls : Nat → Int) (fuel : Nat) (offset : Int),
       (follow node polls fuel offset).heights.Pairwise (· < ·) ∧
       ∀ b ∈ (follow node polls fuel offset).emitted, offset ≤ b.height) ∧
    (∀ (L : Int) (tf : Int → Int) (hf : Int → List Nat) (fuel : Nat)
       (offset : Int),
       (follow (honestNode L tf hf) (fun _ => L) fuel offset).heights =
         ascHeights offset
           (follow (honestNode L tf hf) (fun _ => L) fuel
             offset).emitted.length) := by
  constructor
  · intro node polls fuel offset
    exact followLoop_ascending node polls fuel (polls 0) offset 1
  · intro L tf hf fuel offset
    exact followLoop_honest L tf hf fuel offset 1

/-- Claim C1 counterexample: a node whose BlockchainInfo answer for offset
1 is the single (validly descending, in-window) metadata entry of height 3
makes Follow emit height 3 while skipping heights 1 and 2, so the emitted
sequence is not offset, offset+1, offset+2 and so on. -/
theorem follow_gap_counterexample : ¬ c1Stated := by
  intro hcl
  have h := hcl gapNode (fun _ => 3) 2 1
  revert h
  decide

/-- Witness for C1 at a concrete honest node with latest height 2 and
offset 1: block 2 is emitted at or above the offset, and the run is the
contiguous sequence from the offset. -/
theorem follow_ascending_witness :
    (1 : Int) ≤ (Block.mk 2 0 [] ⟨2⟩).height ∧
    (follow (honestNode 2 (fun _ => 0) (fun _ => [])) (fun _ => 2)
        5 1).heights =
      ascHeights 1
        (follow (honestNode 2 (fun _ => 0) (fun _ => [])) (fun _ => 2)
          5 1).emitted.length := by
  have h := follow_ascending_and_honest_contiguous
  refine ⟨?_, h.2 2 (fun _ => 0) (fun _ => []) 5 1⟩
  exact (h.1 (honestNode 2 (fun _ => 0) (fun _ => [])) (fun _ => 2) 5 1).2
    ⟨2, 0, [], ⟨2⟩⟩ (by decide)

end Midgard